import Mathlib

/-!
Verification development for the streaming archive multiplexer of
mongo-tools (`common/archive/multiplexer.go`) and the metadata writer
(`mongodump/metadata_dump.go`).

Bytes are modelled as `Nat` (values below 256 where it matters), byte
strings as `List Nat`.  Machine 64-bit words are `Nat` with explicit
masking/xor against `2^64 - 1`; xor of two values below `2^64` stays
below `2^64`, so no further reduction is needed.
-/

/-! ## CRC-64 (ECMA polynomial), as implemented by Go `hash/crc64` -/

/-- All-ones 64-bit mask; `comp64` is Go's `^x` on `uint64`. -/
def MASK64 : Nat := 2 ^ 64 - 1

/-- Bitwise complement on 64-bit words (`^x` in Go). -/
def comp64 (x : Nat) : Nat := x ^^^ MASK64

/-- The ECMA polynomial constant `crc64.ECMA` (reversed representation). -/
def crc64ECMA : Nat := 0xC96C5795D7870F42

/-- One iteration of Go `crc64.makeTable`'s inner loop:
`if crc&1 == 1 { crc = crc>>1 ^ poly } else { crc >>= 1 }`. -/
def crc64TabStep (c : Nat) : Nat :=
  if c % 2 = 1 then (c / 2) ^^^ crc64ECMA else c / 2

/-- Entry `tab[b]` of the Go table: eight `crc64TabStep` iterations on `b`. -/
def crc64TabEntry (b : Nat) : Nat := crc64TabStep^[8] b

/-- One byte of Go `crc64.update`'s loop: `crc = tab[byte(crc)^v] ^ (crc >> 8)`. -/
def crc64ByteStep (crc b : Nat) : Nat :=
  crc64TabEntry ((crc ^^^ b) % 256) ^^^ (crc / 256)

/-- The inner fold of Go `crc64.update` (before/after complementing). -/
def crc64Raw (crc : Nat) (p : List Nat) : Nat := p.foldl crc64ByteStep crc

/-- Go `crc64.Update crc tab p = ^update(^crc, p)`; this is what
`digest.Write` applies to the stored crc state (which starts at 0). -/
def crc64Update (crc : Nat) (p : List Nat) : Nat := comp64 (crc64Raw (comp64 crc) p)

/-- CRC-64/ECMA of a whole byte string, i.e. `crc64.Checksum p`. -/
def crc64Full (p : List Nat) : Nat := crc64Update 0 p

/-- The crc state a Go `crc64` digest holds after `Write`-ing each chunk
of `bufs` in order, starting from a fresh digest. -/
def digestChunks (bufs : List (List Nat)) : Nat := bufs.foldl crc64Update 0

theorem comp64_comp64 (x : Nat) : comp64 (comp64 x) = x := by
  unfold comp64
  rw [Nat.xor_assoc, Nat.xor_self, Nat.xor_zero]

theorem crc64Update_nil (c : Nat) : crc64Update c [] = c := by
  unfold crc64Update crc64Raw
  simp [comp64_comp64]

theorem crc64Update_append (c : Nat) (a b : List Nat) :
    crc64Update (crc64Update c a) b = crc64Update c (a ++ b) := by
  unfold crc64Update crc64Raw
  rw [List.foldl_append, comp64_comp64]

theorem foldl_crc64Update_eq (c : Nat) (bufs : List (List Nat)) :
    bufs.foldl crc64Update c = crc64Update c bufs.flatten := by
  induction bufs generalizing c with
  | nil => simp [crc64Update_nil]
  | cons a t ih =>
      rw [List.foldl_cons, ih, List.flatten_cons, crc64Update_append]

/-- Streaming the chunks one `Write` at a time computes the CRC of their
concatenation: buffer boundaries are invisible to the checksum. -/
theorem digestChunks_eq (bufs : List (List Nat)) :
    digestChunks bufs = crc64Full bufs.flatten := by
  unfold digestChunks crc64Full
  exact foldl_crc64Update_eq 0 bufs

/-! ## Framing codec

The archive terminator and the namespace headers.  The header documents
are BSON; the `NamespaceHeader` struct itself lives in the archive
package outside the sources at hand, so its serialized shape is modelled
from the spec (§4.3): a length-prefixed document with fields in the
order `db`, `c`, `eof`, `crc`, absent fields omitted. -/

/-- The 4-zero-byte terminator (`terminatorBytes` in the source). -/
def terminatorBytes : List Nat := [0, 0, 0, 0]

/-- A BSON cstring: the bytes of the name followed by a NUL. -/
def cstringBytes (s : List Nat) : List Nat := s ++ [0]

/-- Little-endian 32-bit encoding. -/
def int32LE (n : Nat) : List Nat :=
  [n % 256, n / 2 ^ 8 % 256, n / 2 ^ 16 % 256, n / 2 ^ 24 % 256]

/-- Little-endian 64-bit encoding (Go's `int64` field is stored as the
same eight bytes as the `uint64` checksum it was cast from). -/
def int64LE (n : Nat) : List Nat :=
  [n % 256, n / 2 ^ 8 % 256, n / 2 ^ 16 % 256, n / 2 ^ 24 % 256,
   n / 2 ^ 32 % 256, n / 2 ^ 40 % 256, n / 2 ^ 48 % 256, n / 2 ^ 56 % 256]

/-- A BSON string element (type tag 0x02). -/
def bsonStringElem (key val : List Nat) : List Nat :=
  [0x02] ++ cstringBytes key ++ int32LE (val.length + 1) ++ val ++ [0]

/-- A BSON boolean element (type tag 0x08). -/
def bsonBoolElem (key : List Nat) (b : Bool) : List Nat :=
  [0x08] ++ cstringBytes key ++ [if b then 1 else 0]

/-- A BSON int64 element (type tag 0x12). -/
def bsonInt64Elem (key : List Nat) (v : Nat) : List Nat :=
  [0x12] ++ cstringBytes key ++ int64LE v

/-- A BSON document: little-endian total size, elements, trailing NUL. -/
def bsonDoc (elems : List Nat) : List Nat :=
  int32LE (elems.length + 5) ++ elems ++ [0]

/-- Modelled from the spec: the open header
`bson.Marshal(NamespaceHeader{Database, Collection})` — fields `db`
then `c`, with `eof`/`crc` omitted (§4.3). -/
def openHeaderBytes (db coll : List Nat) : List Nat :=
  bsonDoc (bsonStringElem [100, 98] db ++ bsonStringElem [99] coll)

/-- Modelled from the spec: the eof header
`bson.Marshal(NamespaceHeader{Database, Collection, EOF: true, CRC})` —
fields `db`, `c`, `eof`, `crc` in order (§4.3). -/
def eofHeaderBytes (db coll : List Nat) (crc : Nat) : List Nat :=
  bsonDoc (bsonStringElem [100, 98] db ++ bsonStringElem [99] coll ++
    bsonBoolElem [101, 111, 102] true ++ bsonInt64Elem [99, 114, 99] crc)

/-! ## Multiplexer core (`Multiplexer` in multiplexer.go)

`Run` is a single-threaded loop over `reflect.Select(mux.selectCases)`.
It is embedded as a step function over the externally chosen select
outcome (`Event`); `reflect.Select` only ever yields an index that is
currently in `selectCases`, so on an out-of-range index the step is
defined (vacuously) as a no-op.  The sink `mux.Out` is modelled by its
behaviour: a function from the index of the `Write` call and the bytes
offered to the pair Go's `Write` returns. -/

/-- A producer handle as the multiplexer sees it: the intent's
namespace parts, the running `hash.Hash64` state, plus an identifier
(channels have identity in Go; `id` stands for the `writeChan`). -/
structure Handle where
  id : Nat
  db : List Nat
  coll : List Nat
  crc : Nat
deriving DecidableEq

/-- The `intent.Namespace()` string, `DB + "." + C` (as bytes). -/
def Handle.ns (h : Handle) : List Nat := h.db ++ [46] ++ h.coll

/-- Result of a Go `Write` call on the sink: bytes accepted and error. -/
structure SinkResp where
  n : Nat
  err : Option String
deriving DecidableEq

/-- Sink behaviour: response to the `k`-th write of the given bytes. -/
def SinkBeh := Nat → List Nat → SinkResp

/-- A sink that accepts every write in full (an ordinary file). -/
def perfectSink : SinkBeh := fun _ bytes => ⟨bytes.length, none⟩

/-- Errors surfaced by the multiplexer and producer handles. -/
inductive MuxErr where
  /-- `io.ErrShortWrite`. -/
  | shortWrite
  /-- An error returned by the sink's `Write`, carried verbatim. -/
  | sinkErr (msg : String)
  /-- `fmt.Errorf("Mux ending but selectCases still open %v", n)`. -/
  | selectCasesOpen (n : Nat)
  /-- `fmt.Errorf("non MuxIn received on Control chan")`. -/
  | nonMuxIn
  /-- `fmt.Errorf("multiplexer received a value that wasn't a []byte")`. -/
  | nonBytes
deriving DecidableEq

/-- Write a sequence of framing chunks, each of which must be accepted
in full: the Go pattern `l, err := mux.Out.Write(x); if err != nil
{ return err }; if l != len(x) { return io.ErrShortWrite }` repeated.
Returns the chunks actually offered to the sink and the error, if any. -/
def writeFramed (beh : SinkBeh) (base : Nat) :
    List (List Nat) → List (List Nat) × Option MuxErr
  | [] => ([], none)
  | c :: cs =>
      let r := beh base c
      match r.err with
      | some m => ([c], some (MuxErr.sinkErr m))
      | none =>
          if r.n = c.length then
            let rest := writeFramed beh (base + 1) cs
            (c :: rest.1, rest.2)
          else ([c], some MuxErr.shortWrite)

/-- The framing chunks `formatBody` must emit before the record bytes:
nothing if the handle's namespace is current; otherwise a terminator
(unless no namespace is current) followed by the open header. -/
def framingChunks (curNs db coll : List Nat) : List (List Nat) :=
  if db ++ [46] ++ coll = curNs then []
  else (if curNs = [] then [] else [terminatorBytes]) ++ [openHeaderBytes db coll]

/-- Outcome of `Multiplexer.formatBody`. -/
structure BodyOut where
  /-- Chunks offered to `mux.Out.Write`, in order. -/
  chunks : List (List Nat)
  /-- `mux.currentNamespace` after the call. -/
  newNs : List Nat
  /-- `Except.ok n`: returned nil after sending `n` on `writeLenChan`. -/
  result : Except MuxErr Nat

/-- `Multiplexer.formatBody` (multiplexer.go:111-147): emit framing on a
namespace change, set `currentNamespace`, write the record bytes, and
ack whatever count the sink returned — the body write's length is not
checked here. On a framing error `currentNamespace` is left unchanged. -/
def formatBody (beh : SinkBeh) (base : Nat) (curNs : List Nat) (h : Handle)
    (bsonBytes : List Nat) : BodyOut :=
  let framing := framingChunks curNs h.db h.coll
  let w := writeFramed beh base framing
  match w.2 with
  | some err => ⟨w.1, curNs, Except.error err⟩
  | none =>
      let r := beh (base + w.1.length) bsonBytes
      match r.err with
      | some m => ⟨w.1 ++ [bsonBytes], h.ns, Except.error (MuxErr.sinkErr m)⟩
      | none => ⟨w.1 ++ [bsonBytes], h.ns, Except.ok r.n⟩

/-- Outcome of `Multiplexer.formatEOF`. -/
structure EOFOut where
  /-- Chunks offered to `mux.Out.Write`, in order. -/
  chunks : List (List Nat)
  /-- The `(handle id, crc)` marshalled into the eof header, when it was. -/
  eofRec : Option (Nat × Nat)
  err : Option MuxErr
deriving DecidableEq

/-- `Multiplexer.formatEOF` (multiplexer.go:150-185): terminator if a
namespace is current, then the eof header carrying `in.hash.Sum64()`,
then a terminator; every write is checked for errors and short counts. -/
def formatEOF (beh : SinkBeh) (base : Nat) (curNs : List Nat) (h : Handle) : EOFOut :=
  let pre := if curNs = [] then [] else [terminatorBytes]
  let w1 := writeFramed beh base pre
  match w1.2 with
  | some err => ⟨w1.1, none, some err⟩
  | none =>
      let eofHeader := eofHeaderBytes h.db h.coll h.crc
      let w2 := writeFramed beh (base + w1.1.length) [eofHeader, terminatorBytes]
      ⟨w1.1 ++ w2.1, some (h.id, h.crc), w2.2⟩

/-- The multiplexer's state.  `ins` mirrors the source's correlated
`ins`/`selectCases` slices, with `none` at index 0 for the Control
case.  `outWrites`/`sinkCalls` log the chunks offered to the sink;
`deliveries` and `eofs` are ghost logs of data receives and of the
`(id, crc)` pairs marshalled into eof headers. -/
structure MuxState where
  outWrites : List (List Nat)
  outClosed : Bool
  sinkCalls : Nat
  ins : List (Option Handle)
  currentNamespace : List Nat
  nextId : Nat
  deliveries : List (Nat × List Nat)
  eofs : List (Nat × Nat)
deriving DecidableEq

/-- The state `NewMultiplexer` hands to `Run`. -/
def initMux : MuxState :=
  ⟨[], false, 0, [none], [], 0, [], []⟩

/-- One outcome of `reflect.Select` in `Run`: a receive or an EOF on
the control channel (index 0) or on a data channel (index ≥ 1). -/
inductive Event where
  /-- Control receive of a `*MuxIn` for the given namespace. -/
  | ctrlRecv (db coll : List Nat)
  /-- Control receive of a value that is not a `*MuxIn`. -/
  | ctrlBad
  /-- Control channel closed. -/
  | ctrlClose
  /-- Data receive of a byte buffer on index `i`. -/
  | dataRecv (i : Nat) (bytes : List Nat)
  /-- Data receive of a value that is not a `[]byte` on index `i`. -/
  | dataBad (i : Nat)
  /-- Data channel `i` closed. -/
  | dataClose (i : Nat)
deriving DecidableEq

/-- What one loop iteration of `Run` did. -/
structure StepOut where
  state : MuxState
  /-- `(handle id, n)` sent on that handle's `writeLenChan`, if any. -/
  ack : Option (Nat × Nat)
  /-- `some c`: published `c` on `mux.Completed` and returned
  (`some none` is the nil completion). -/
  completed : Option (Option MuxErr)
deriving DecidableEq

/-- One iteration of `Multiplexer.Run` (multiplexer.go:52-107). -/
def step (beh : SinkBeh) (s : MuxState) : Event → StepOut
  | Event.ctrlClose =>
      let s1 : MuxState := { s with outClosed := true }
      if s1.ins.length ≠ 1 then
        ⟨s1, none, some (some (MuxErr.selectCasesOpen s1.ins.length))⟩
      else ⟨s1, none, some none⟩
  | Event.ctrlBad => ⟨s, none, some (some MuxErr.nonMuxIn)⟩
  | Event.ctrlRecv db coll =>
      ⟨{ s with ins := s.ins ++ [some ⟨s.nextId, db, coll, 0⟩],
                nextId := s.nextId + 1 }, none, none⟩
  | Event.dataBad i =>
      match s.ins[i]? with
      | some (some _) => ⟨s, none, some (some MuxErr.nonBytes)⟩
      | _ => ⟨s, none, none⟩
  | Event.dataRecv i bytes =>
      match s.ins[i]? with
      | some (some h) =>
          let h2 : Handle := { h with crc := crc64Update h.crc bytes }
          let o := formatBody beh s.sinkCalls s.currentNamespace h2 bytes
          let s1 : MuxState :=
            { s with ins := s.ins.set i (some h2),
                     deliveries := s.deliveries ++ [(h.id, bytes)],
                     outWrites := s.outWrites ++ o.chunks,
                     sinkCalls := s.sinkCalls + o.chunks.length,
                     currentNamespace := o.newNs }
          match o.result with
          | Except.error e => ⟨s1, none, some (some e)⟩
          | Except.ok n => ⟨s1, some (h.id, n), none⟩
      | _ => ⟨s, none, none⟩
  | Event.dataClose i =>
      match s.ins[i]? with
      | some (some h) =>
          let o := formatEOF beh s.sinkCalls s.currentNamespace h
          let s1 : MuxState :=
            { s with outWrites := s.outWrites ++ o.chunks,
                     sinkCalls := s.sinkCalls + o.chunks.length,
                     eofs := s.eofs ++ o.eofRec.toList }
          match o.err with
          | some e => ⟨s1, none, some (some e)⟩
          | none =>
              ⟨{ s1 with currentNamespace := [],
                         ins := s1.ins.take i ++ s1.ins.drop (i + 1) },
               none, none⟩
      | _ => ⟨s, none, none⟩

/-- A whole `Run`: final state, the acks sent in order, and the value
published on `Completed` (if the loop returned). -/
structure RunOut where
  state : MuxState
  acks : List (Nat × Nat)
  completed : Option (Option MuxErr)
deriving DecidableEq

/-- Iterate `step` over the externally observed select outcomes until
`Run` returns (or the outcomes are exhausted). -/
def runAux (beh : SinkBeh) (s : MuxState) (acks : List (Nat × Nat)) :
    List Event → RunOut
  | [] => ⟨s, acks, none⟩
  | e :: es =>
      let o := step beh s e
      let acks2 := acks ++ o.ack.toList
      match o.completed with
      | some c => ⟨o.state, acks2, some c⟩
      | none => runAux beh o.state acks2 es

/-- `Multiplexer.Run` from a fresh multiplexer. -/
def muxRun (beh : SinkBeh) (events : List Event) : RunOut :=
  runAux beh initMux [] events

/-- The buffers delivered (in order) on data receives for handle `i`. -/
def deliveredTo (ds : List (Nat × List Nat)) (i : Nat) : List (List Nat) :=
  (ds.filter (fun d => d.1 == i)).map Prod.snd

/-! ## Producer handle (`MuxIn` in multiplexer.go)

The producer-side operations are pure in everything except the
handshake; the ack the multiplexer sends back on `writeLenChan` is
passed in as a parameter.  `bufferWrites` is the constant `true` in the
source, so only the buffered paths exist. -/

/-- `db.MaxBSONSize`, the accumulation buffer capacity (`bufferSize`). -/
def bufferSize : Nat := 16777216

/-- The declared size of a record: its first four bytes read as a
little-endian uint32, `buf[0] | buf[1]<<8 | buf[2]<<16 | buf[3]<<24`. -/
def declaredSize (bytes : List Nat) : Nat :=
  bytes.getD 0 0 + bytes.getD 1 0 * 2 ^ 8 + bytes.getD 2 0 * 2 ^ 16 +
    bytes.getD 3 0 * 2 ^ 24

/-- Outcome of `MuxIn.Write`. -/
inductive WriteOutcome where
  /-- Go runtime panic: slice index out of range at index `i`
  (`i = len(buf)` when `len(buf) < 4`; `i = -1` via `buf[size-1]`
  when the declared size is 0). -/
  | panicOOB (i : Int)
  /-- `panic("corrupt bson in MuxIn.Write (size %v/%v)")`. -/
  | panicCorruptSize (size len : Nat)
  /-- `panic("corrupt bson in MuxIn.Write bson has no-zero terminator")`. -/
  | panicCorruptTerm (size len : Nat)
  /-- Returned `(0, io.ErrShortWrite)` after a mismatched flush ack. -/
  | errShortWrite
  /-- Returned `(ret, nil)`; `acc2` is the accumulation buffer after the
  call and `flushed` the buffer shipped on `writeChan`, if any. -/
  | ok (acc2 : List Nat) (ret : Nat) (flushed : Option (List Nat))
deriving DecidableEq

/-- `MuxIn.Write` (multiplexer.go:241-273), buffered path.  `acc` is the
current accumulation buffer `muxIn.buf`, `capacity` its capacity, and
`ack` the length the multiplexer sends back if a flush happens. -/
def MuxInWrite (acc : List Nat) (capacity ack : Nat) (bytes : List Nat) :
    WriteOutcome :=
  if bytes.length < 4 then WriteOutcome.panicOOB bytes.length
  else
    let size := declaredSize bytes
    if bytes.length < size then WriteOutcome.panicCorruptSize size bytes.length
    else if size = 0 then WriteOutcome.panicOOB (-1)
    else if bytes.getD (size - 1) 1 ≠ 0 then
      WriteOutcome.panicCorruptTerm size bytes.length
    else if acc.length + bytes.length > capacity then
      if ack = acc.length then WriteOutcome.ok bytes bytes.length (some acc)
      else WriteOutcome.errShortWrite
    else WriteOutcome.ok (acc ++ bytes) bytes.length none

/-- Outcome of `MuxIn.Close`. -/
structure CloseOut where
  /-- The buffer sent on `writeChan` (always the residual `muxIn.buf`). -/
  flushed : List Nat
  /-- The returned error (`some MuxErr.shortWrite` or `none`). -/
  err : Option MuxErr
  /-- Whether `close(muxIn.writeChan)`/`close(muxIn.writeLenChan)` ran. -/
  channelsClosed : Bool
  /-- `muxIn.buf` afterwards (`none` models Go's `nil`). -/
  accAfter : Option (List Nat)
deriving DecidableEq

/-- `MuxIn.Close` (multiplexer.go:208-222): ship the residual buffer,
read the ack, and return `io.ErrShortWrite` — before the `close` calls —
if the ack mismatches; only on a matching ack are both channels closed. -/
def MuxInClose (acc : List Nat) (ack : Nat) : CloseOut :=
  if ack ≠ acc.length then ⟨acc, some MuxErr.shortWrite, false, some acc⟩
  else ⟨acc, none, true, none⟩

/-- Producer-side state of a `MuxIn`. -/
structure MuxInState where
  /-- Whether the handshake channels are currently allocated. -/
  chansAllocated : Bool
  acc : List Nat
  crc : Nat
deriving DecidableEq

/-- Outcome of `MuxIn.Open`. -/
structure OpenOut where
  state : MuxInState
  /-- Whether the handle published itself on `mux.Control`. -/
  registered : Bool
  err : Option MuxErr
deriving DecidableEq

/-- `MuxIn.Open` (multiplexer.go:226-237): unconditionally allocate
fresh channels, a fresh buffer and a fresh CRC, publish the handle on
the control channel, and return nil — the prior state is not examined. -/
def MuxInOpen (_ : MuxInState) : OpenOut :=
  ⟨⟨true, [], 0⟩, true, none⟩

/-! ## Metadata writer (`mongodump/metadata_dump.go`)

JSON values, the `Metadata` struct, and the part of `dumpMetadata` that
decides the emitted document.  `encoding/json` marshalling of the
struct is modelled field by field: `Options interface{}` carries the
tag `json:"options,omitempty"`, and for an interface-typed field
`omitempty` omits it exactly when the interface is nil (`Option.none`
here); `Indexes []interface{}` carries the tag `json:"indexes"` with no
`omitempty`. -/

/-- A JSON value. -/
inductive Json where
  | null
  | bool (b : Bool)
  | num (n : Int)
  | str (s : String)
  | arr (xs : List Json)
  | obj (fields : List (String × Json))

/-- The `Metadata` struct: `Options interface{}` (a nil interface is
`none`) and `Indexes []interface{}`. -/
structure Metadata where
  options : Option Json
  indexes : List Json

/-- `json.Marshal` of `Metadata`: fields in struct order; `options`
present iff the interface is non-nil (`omitempty` on an interface tests
`IsNil`); `indexes` always present as a JSON array. -/
def marshalMetadata (m : Metadata) : Json :=
  Json.obj ((match m.options with
    | none => []
    | some v => [("options", v)]) ++ [("indexes", Json.arr m.indexes)])

/-- Look a key up in a JSON object. -/
def getField (j : Json) (key : String) : Option Json :=
  match j with
  | Json.obj fields => fields.lookup key
  | _ => none

/-- Whether a JSON object carries a key. -/
def hasField (j : Json) (key : String) : Bool :=
  match j with
  | Json.obj fields => fields.any (fun f => f.1 == key)
  | _ => false

/-- Modelled in part: `db.GetCollectionOptions`,
`bsonutil.FindValueByKey`, `bsonutil.ConvertBSONValueToJSON` and
`bsonutil.MarshalD` live outside the sources at hand.  `collInfo` is
`none` when `GetCollectionOptions` returned nil (collection vanished:
nothing is written); `some none` when the collection was found but its
info has no `options` key; `some (some v)` when an `options`
subdocument was found and converts to `v`.  The empty
`bsonutil.MarshalD{}` assigned at metadata_dump.go:69 marshals as the
empty JSON object.  `indexes` is the list of converted index documents
in cursor order, appended to the initial empty (never nil) slice.
Returns the JSON document written, if any. -/
def dumpMetadataJson (collInfo : Option (Option Json)) (indexes : List Json) :
    Option Json :=
  match collInfo with
  | none => none
  | some found =>
      let opts : Option Json := some (found.getD (Json.obj []))
      some (marshalMetadata ⟨opts, indexes⟩)

/-! ## Helper lemmas -/

theorem writeFramed_ok (beh : SinkBeh) (base : Nat) (cs : List (List Nat))
    (hok : (writeFramed beh base cs).2 = none) :
    (writeFramed beh base cs).1 = cs := by
  induction cs generalizing base with
  | nil => rfl
  | cons c cs ih =>
      simp only [writeFramed] at hok ⊢
      cases hberr : (beh base c).err with
      | some m => simp [hberr] at hok
      | none =>
          simp only [hberr] at hok ⊢
          by_cases hn : (beh base c).n = c.length
          · rw [if_pos hn] at hok ⊢
            rw [ih (base + 1) hok]
          · rw [if_neg hn] at hok
            exact Option.noConfusion hok

theorem getElem?_append_single (l : List α) (x : α) (i : Nat) :
    (l ++ [x])[i]? = if i < l.length then l[i]?
      else if i = l.length then some x else none := by
  by_cases hi : i < l.length
  · rw [List.getElem?_append_left hi, if_pos hi]
  · rw [List.getElem?_append_right (Nat.le_of_not_lt hi), if_neg hi]
    by_cases he : i = l.length
    · subst he; simp
    · rw [if_neg he]
      cases hk : i - l.length with
      | zero => omega
      | succ k => simp

theorem getElem?_removeAt (l : List α) (i j : Nat) :
    (l.take i ++ l.drop (i + 1))[j]? = if j < i then l[j]? else l[j + 1]? := by
  induction l generalizing i j with
  | nil => simp
  | cons a t ih =>
      cases i with
      | zero => simp
      | succ i2 =>
          cases j with
          | zero => simp
          | succ j2 =>
              simp only [List.take_succ_cons, List.drop_succ_cons,
                List.cons_append, List.getElem?_cons_succ]
              rw [ih i2 j2]
              simp [Nat.succ_lt_succ_iff]

theorem deliveredTo_append (ds es : List (Nat × List Nat)) (i : Nat) :
    deliveredTo (ds ++ es) i = deliveredTo ds i ++ deliveredTo es i := by
  unfold deliveredTo
  rw [List.filter_append, List.map_append]

theorem deliveredTo_single_eq (i : Nat) (b : List Nat) :
    deliveredTo [(i, b)] i = [b] := by
  simp [deliveredTo]

theorem deliveredTo_single_ne (j i : Nat) (b : List Nat) (hne : j ≠ i) :
    deliveredTo [(j, b)] i = [] := by
  have hb : ((j, b).1 == i) = false := beq_eq_false_iff_ne.mpr hne
  simp [deliveredTo, List.filter, hb]

theorem deliveredTo_eq_nil (ds : List (Nat × List Nat)) (i : Nat)
    (hni : ∀ d ∈ ds, d.1 ≠ i) : deliveredTo ds i = [] := by
  unfold deliveredTo
  have hf : List.filter (fun d => d.1 == i) ds = [] :=
    List.filter_eq_nil_iff.mpr (fun d hd => by simpa using hni d hd)
  rw [hf]
  rfl

theorem digestChunks_append_single (xs : List (List Nat)) (b : List Nat) :
    digestChunks (xs ++ [b]) = crc64Update (digestChunks xs) b := by
  unfold digestChunks
  rw [List.foldl_append]
  rfl

/-! ## Claims about the producer handle -/

/-- Claim C4, counterexample: with a residual buffer of one byte and a
flush ack of 0, `MuxIn.Close` returns `io.ErrShortWrite` but does NOT
close the handshake channels — the claim that close always closes both
channels even on an ack mismatch is false on the code, which returns
before the `close` calls. -/
theorem C4_counterexample :
    (MuxInClose [0] 0).channelsClosed = false ∧
    (MuxInClose [0] 0).err = some MuxErr.shortWrite := by
  decide

/-- Claim C4, amended: `MuxIn.Close` flushes the residual buffer and
then closes both handshake channels only when the ack matches the
buffer's length; on a mismatch it returns `io.ErrShortWrite` without
closing either channel (and without clearing the buffer). -/
theorem C4_thm (acc : List Nat) (ack : Nat) :
    MuxInClose acc ack =
      if ack = acc.length then ⟨acc, none, true, none⟩
      else ⟨acc, some MuxErr.shortWrite, false, some acc⟩ := by
  unfold MuxInClose
  by_cases hh : ack = acc.length
  · rw [if_neg (by simpa using hh), if_pos hh]
  · rw [if_pos hh, if_neg hh]

/-- Claim C5, counterexample: invoking `MuxIn.Open` on a handle that is
already open returns a nil error (and registers the handle again) — it
does not fail with an `AlreadyOpen` error; no such check or error
exists in the code. -/
theorem C5_counterexample :
    (MuxInOpen (MuxInOpen ⟨false, [], 0⟩).state).err = none ∧
    (MuxInOpen (MuxInOpen ⟨false, [], 0⟩).state).registered = true :=
  ⟨rfl, rfl⟩

/-- Claim C5, amended: `MuxIn.Open` never fails: regardless of the
handle's prior state it reinitialises the channels, buffer and CRC,
publishes the handle on the control channel again, and returns nil. -/
theorem C5_thm (s : MuxInState) :
    MuxInOpen s = ⟨⟨true, [], 0⟩, true, none⟩ :=
  rfl

/-- Claim C7: under the structural preconditions (at least four bytes,
declared size within the input, positive, null terminator in place),
`MuxIn.Write` ships the accumulation buffer through the handshake and
resets it exactly when appending would exceed the capacity, appends the
input, and returns `len(bytes)`; the only non-success outcome is
`io.ErrShortWrite` when the flush ack mismatches. -/
theorem C7_thm (acc : List Nat) (capacity ack : Nat) (bytes : List Nat)
    (hlen : 4 ≤ bytes.length)
    (hsz : declaredSize bytes ≤ bytes.length)
    (hpos : 0 < declaredSize bytes)
    (hterm : bytes.getD (declaredSize bytes - 1) 1 = 0) :
    MuxInWrite acc capacity ack bytes =
      if acc.length + bytes.length > capacity then
        if ack = acc.length then WriteOutcome.ok bytes bytes.length (some acc)
        else WriteOutcome.errShortWrite
      else WriteOutcome.ok (acc ++ bytes) bytes.length none := by
  simp only [MuxInWrite]
  rw [if_neg (by omega), if_neg (by omega), if_neg (by omega),
    if_neg (by simp [List.getD] at hterm ⊢; exact hterm)]

/-- Claim C7, witness: a five-byte record overflowing a capacity-3
buffer holding one byte ships the old buffer and returns 5. -/
theorem C7_witness :
    MuxInWrite [1] 3 1 [5, 0, 0, 0, 0] =
      WriteOutcome.ok [5, 0, 0, 0, 0] 5 (some [1]) := by
  rw [C7_thm [1] 3 1 [5, 0, 0, 0, 0] (by decide) (by decide) (by decide)
    (by decide)]
  decide

/-- Claim C8: `MuxIn.Write` panics with a Go index-out-of-range error —
before either documented corrupt-record panic fires — on any input
shorter than four bytes (indexing `buf[0..3]`), and on any input whose
first four bytes decode to a declared size of 0 (indexing
`buf[size-1] = buf[-1]`). -/
theorem C8_thm (acc : List Nat) (capacity ack : Nat) (bytes : List Nat) :
    (bytes.length < 4 →
      MuxInWrite acc capacity ack bytes = WriteOutcome.panicOOB bytes.length) ∧
    (4 ≤ bytes.length → declaredSize bytes = 0 →
      MuxInWrite acc capacity ack bytes = WriteOutcome.panicOOB (-1)) := by
  constructor
  · intro h4
    simp only [MuxInWrite]
    rw [if_pos h4]
  · intro h4 hz
    simp only [MuxInWrite]
    rw [if_neg (by omega), if_neg (by omega), if_pos hz]

/-- Claim C8, witness: a two-byte input panics out of range at index 2,
and an input of four zero bytes (declared size 0) panics at index -1. -/
theorem C8_witness :
    MuxInWrite [] 10 0 [1, 2] = WriteOutcome.panicOOB 2 ∧
    MuxInWrite [] 10 0 [0, 0, 0, 0] = WriteOutcome.panicOOB (-1) :=
  ⟨(C8_thm [] 10 0 [1, 2]).1 (by decide),
   (C8_thm [] 10 0 [0, 0, 0, 0]).2 (by decide) (by decide)⟩

/-! ## Claim about the metadata writer -/

/-- Claim C10, counterexample: for a collection that exists but has no
`options` subdocument (and no indexes), the emitted metadata JSON still
contains an `options` field (as the empty object) — `omitempty` does
not omit a non-nil interface value, and `dumpMetadata` always assigns
`bsonutil.MarshalD{}` before marshalling — so the claim that the
`options` field is omitted when empty is false on the code. -/
theorem C10_counterexample :
    dumpMetadataJson (some none) [] =
      some (Json.obj [("options", Json.obj []), ("indexes", Json.arr [])]) ∧
    hasField (Json.obj [("options", Json.obj []), ("indexes", Json.arr [])])
      "options" = true :=
  ⟨rfl, by decide⟩

/-- Claim C10, amended: whenever `dumpMetadata` emits a document, its
`indexes` field is present and is a JSON array of the converted index
documents (the empty array for a collection with no indexes, never
null), and its `options` field is present as well — equal to the found
options subdocument, or to the empty object when none was found — never
omitted, because `omitempty` only omits a nil interface and the code
always assigns a non-nil value before marshalling. -/
theorem C10_thm (found : Option Json) (indexes : List Json) :
    dumpMetadataJson (some found) indexes =
      some (Json.obj [("options", found.getD (Json.obj [])),
                      ("indexes", Json.arr indexes)]) ∧
    getField (Json.obj [("options", found.getD (Json.obj [])),
        ("indexes", Json.arr indexes)]) "indexes" = some (Json.arr indexes) ∧
    getField (Json.obj [("options", found.getD (Json.obj [])),
        ("indexes", Json.arr indexes)]) "options" =
      some (found.getD (Json.obj [])) ∧
    dumpMetadataJson none indexes = none := by
  refine ⟨?_, ?_, ?_, rfl⟩
  · cases found <;> rfl
  · have h1 : (("indexes" : String) == "options") = false := by decide
    have h2 : (("indexes" : String) == "indexes") = true := by decide
    simp [getField, List.lookup, h1, h2]
  · have h3 : (("options" : String) == "options") = true := by decide
    simp [getField, List.lookup, h3]

/-! ## Claims about the multiplexer run loop -/

/-- A control receive followed by control close: one data stream open. -/
def ev2 : List Event := [Event.ctrlRecv [100] [99], Event.ctrlClose]

/-- Claim C2, counterexample: with one data channel still open, control
close makes `Run` close the sink first (`mux.Out.Close()` precedes the
check) and publish an error carrying `len(selectCases) = 2`, not the
count of open streams (1) — so the claim that the sink is not closed on
this path (and that the error carries the open-stream count) is false
on the code. -/
theorem C2_counterexample :
    (muxRun perfectSink ev2).state.outClosed = true ∧
    (muxRun perfectSink ev2).completed =
      some (some (MuxErr.selectCasesOpen 2)) := by
  decide

/-- Claim C2, amended: if the control channel closes while at least one
data channel is open, the multiplexer closes the sink, then publishes
on the completion channel an error carrying the number of select cases
still open (the open data channels plus one for the control case) and
returns. -/
theorem C2_thm (beh : SinkBeh) (s : MuxState) (hopen : 1 < s.ins.length) :
    step beh s Event.ctrlClose =
      ⟨{ s with outClosed := true }, none,
       some (some (MuxErr.selectCasesOpen s.ins.length))⟩ := by
  simp only [step]
  rw [if_pos (show s.ins.length ≠ 1 by omega)]

/-- Claim C2, witness: the state after registering one producer has two
select cases; closing control therefore closes the sink and fails. -/
theorem C2_witness :
    step perfectSink
        (step perfectSink initMux (Event.ctrlRecv [100] [99])).state
        Event.ctrlClose =
      ⟨{ (step perfectSink initMux (Event.ctrlRecv [100] [99])).state with
          outClosed := true }, none,
       some (some (MuxErr.selectCasesOpen
         (step perfectSink initMux (Event.ctrlRecv [100] [99])).state.ins.length))⟩ :=
  C2_thm perfectSink _ (by decide)

/-- A sink that accepts only one byte of the two-byte record body but
everything else (headers, terminators) in full, with nil errors. -/
def shortBodySink : SinkBeh := fun _ bytes =>
  if bytes = [5, 0] then ⟨1, none⟩ else ⟨bytes.length, none⟩

/-- Registration then a data receive whose body the sink short-writes. -/
def ev3 : List Event := [Event.ctrlRecv [100] [99], Event.dataRecv 1 [5, 0]]

/-- Claim C3, counterexample: the sink accepts only 1 of the 2 record
bytes (with a nil error); `Run` does not publish anything on the
completion channel and does not exit — it acks the short count 1 to the
producer and keeps looping — so the claim that short writes of record
bodies are terminal for the multiplexer is false on the code
(`formatBody` checks the length of framing writes but not of the record
write). -/
theorem C3_counterexample :
    (muxRun shortBodySink ev3).completed = none ∧
    (muxRun shortBodySink ev3).acks = [(0, 1)] := by
  decide

/-- Claim C3, amended: when the sink write of the record bytes returns
a short count with a nil error, the multiplexer is not terminated: the
short count is sent to the producer on the ack channel and the run loop
continues (the producer side then reports `ShortWrite` to its caller);
only a non-nil sink error, or a short write of framing bytes, makes the
run loop publish on the completion channel and exit. -/
theorem C3_thm (beh : SinkBeh) (s : MuxState) (i : Nat) (h : Handle)
    (bytes : List Nat) (n : Nat)
    (hget : s.ins[i]? = some (some h))
    (hframe : (writeFramed beh s.sinkCalls
        (framingChunks s.currentNamespace h.db h.coll)).2 = none)
    (hbody : beh (s.sinkCalls +
        (framingChunks s.currentNamespace h.db h.coll).length) bytes =
      ⟨n, none⟩)
    (hshort : n < bytes.length) :
    (step beh s (Event.dataRecv i bytes)).completed = none ∧
    (step beh s (Event.dataRecv i bytes)).ack = some (h.id, n) := by
  have hfr1 := writeFramed_ok beh s.sinkCalls _ hframe
  simp only [step, hget, formatBody, hframe, hfr1, hbody]
  exact ⟨trivial, trivial⟩

/-- Claim C3, witness: the short-body scenario, one step in. -/
theorem C3_witness :
    (step shortBodySink
        (step shortBodySink initMux (Event.ctrlRecv [100] [99])).state
        (Event.dataRecv 1 [5, 0])).completed = none ∧
    (step shortBodySink
        (step shortBodySink initMux (Event.ctrlRecv [100] [99])).state
        (Event.dataRecv 1 [5, 0])).ack = some (0, 1) :=
  C3_thm shortBodySink _ 1 ⟨0, [100], [99], 0⟩ [5, 0] 1 (by decide)
    (by decide) (by decide) (by decide)

/-- Claim C9: on a successful data receive the value sent back on the
ack channel is exactly what the sink returned for the record-bytes
write alone; terminator and open-header bytes written by body framing
in the same dispatch are not included.  In particular a fully accepted
buffer is acked with its own length even when a namespace switch caused
framing output. -/
theorem C9_thm (beh : SinkBeh) (s : MuxState) (i : Nat) (h : Handle)
    (bytes : List Nat)
    (hget : s.ins[i]? = some (some h))
    (hframe : (writeFramed beh s.sinkCalls
        (framingChunks s.currentNamespace h.db h.coll)).2 = none)
    (hbody : beh (s.sinkCalls +
        (framingChunks s.currentNamespace h.db h.coll).length) bytes =
      ⟨bytes.length, none⟩) :
    (step beh s (Event.dataRecv i bytes)).ack = some (h.id, bytes.length) ∧
    (step beh s (Event.dataRecv i bytes)).completed = none := by
  have hfr1 := writeFramed_ok beh s.sinkCalls _ hframe
  simp only [step, hget, formatBody, hframe, hfr1, hbody]
  exact ⟨trivial, trivial⟩

/-- Claim C9, witness: a fresh producer's first two-byte buffer causes
an open header (24 bytes of framing) yet is acked with exactly 2. -/
theorem C9_witness :
    (step perfectSink
        (step perfectSink initMux (Event.ctrlRecv [100] [99])).state
        (Event.dataRecv 1 [7, 7])).ack = some (0, 2) ∧
    (step perfectSink
        (step perfectSink initMux (Event.ctrlRecv [100] [99])).state
        (Event.dataRecv 1 [7, 7])).completed = none :=
  C9_thm perfectSink _ 1 ⟨0, [100], [99], 0⟩ [7, 7] (by decide) (by decide)
    (by decide)

/-! ## Claim C1: the empty stream -/

theorem writeFramed_perfect (base : Nat) (cs : List (List Nat)) :
    writeFramed perfectSink base cs = (cs, none) := by
  induction cs generalizing base with
  | nil => rfl
  | cons c cs ih => simp [writeFramed, perfectSink, ih]

/-- The select outcomes produced by a producer that opens and then
closes without any `Write` call: `MuxIn.Close` always ships the
residual (empty) accumulation buffer before closing the channels, so
the multiplexer sees a registration, a data receive of the empty
buffer, and then the data EOF. -/
def emptyRun (db coll : List Nat) : List Event :=
  [Event.ctrlRecv db coll, Event.dataRecv 1 [], Event.dataClose 1]

def emptyState1 (db coll : List Nat) : MuxState :=
  ⟨[], false, 0, [none, some ⟨0, db, coll, 0⟩], [], 1, [], []⟩

def emptyState2 (db coll : List Nat) : MuxState :=
  ⟨[openHeaderBytes db coll, []], false, 2, [none, some ⟨0, db, coll, 0⟩],
   db ++ [46] ++ coll, 1, [(0, [])], []⟩

def emptyState3 (db coll : List Nat) : MuxState :=
  ⟨[openHeaderBytes db coll, [], terminatorBytes, eofHeaderBytes db coll 0,
    terminatorBytes], false, 5, [none], [], 1, [(0, [])], [(0, 0)]⟩

theorem emptyStep1 (db coll : List Nat) :
    step perfectSink initMux (Event.ctrlRecv db coll) =
      ⟨emptyState1 db coll, none, none⟩ := rfl

theorem emptyStep2 (db coll : List Nat) :
    step perfectSink (emptyState1 db coll) (Event.dataRecv 1 []) =
      ⟨emptyState2 db coll, some (0, 0), none⟩ := by
  have hfb : formatBody perfectSink 0 [] ⟨0, db, coll, crc64Update 0 []⟩ [] =
      ⟨[openHeaderBytes db coll, []], db ++ [46] ++ coll, Except.ok 0⟩ := by
    simp [formatBody, framingChunks, writeFramed_perfect, perfectSink, Handle.ns]
  simp only [step, emptyState1]
  rw [show (([none, some ⟨0, db, coll, 0⟩] : List (Option Handle))[1]?) =
    some (some ⟨0, db, coll, 0⟩) from rfl]
  simp only [hfb]
  rfl

theorem emptyStep3 (db coll : List Nat) :
    step perfectSink (emptyState2 db coll) (Event.dataClose 1) =
      ⟨emptyState3 db coll, none, none⟩ := by
  have hfe : formatEOF perfectSink 2 (db ++ [46] ++ coll) ⟨0, db, coll, 0⟩ =
      ⟨[terminatorBytes, eofHeaderBytes db coll 0, terminatorBytes],
       some (0, 0), none⟩ := by
    simp [formatEOF, writeFramed_perfect]
  simp only [step, emptyState2]
  rw [show (([none, some ⟨0, db, coll, 0⟩] : List (Option Handle))[1]?) =
    some (some ⟨0, db, coll, 0⟩) from rfl]
  simp only [hfe]
  rfl

theorem emptyMuxRun (db coll : List Nat) :
    muxRun perfectSink (emptyRun db coll) =
      ⟨emptyState3 db coll, [(0, 0)], none⟩ := by
  unfold muxRun emptyRun
  simp only [runAux, emptyStep1 db coll, emptyStep2 db coll, emptyStep3 db coll]
  rfl

/-- Claim C1, counterexample: for a producer on namespace `d.c` that
opens and closes without writing, the bytes the multiplexer emits are
NOT just the eof header and one terminator: `MuxIn.Close` flushes the
empty buffer, which makes `formatBody` emit the open header and set the
current namespace, so the eof framing also emits a preceding
terminator. -/
theorem C1_counterexample :
    (muxRun perfectSink (emptyRun [100] [99])).state.outWrites.flatten ≠
      eofHeaderBytes [100] [99] 0 ++ terminatorBytes := by
  decide

/-- Claim C1, amended: for every producer handle that is opened and
then closed without any write call (with a sink that accepts every
write), the multiplexer emits exactly the open header, a terminator,
the eof header, and a terminator — and the crc field of that eof
header equals 0.  (The close-time flush of the empty accumulation
buffer arrives as an empty data receive, which triggers the open header
and makes `currentNamespace` non-empty, so the eof framing emits the
preceding terminator; the empty record write itself contributes no
bytes.) -/
theorem C1_thm (db coll : List Nat) :
    (muxRun perfectSink (emptyRun db coll)).state.outWrites.flatten =
      openHeaderBytes db coll ++ terminatorBytes ++
        eofHeaderBytes db coll 0 ++ terminatorBytes ∧
    (muxRun perfectSink (emptyRun db coll)).completed = none := by
  rw [emptyMuxRun db coll]
  refine ⟨?_, rfl⟩
  simp [emptyState3]

/-! ## Claim C6: per-stream CRC -/

def MuxInv (s : MuxState) : Prop :=
  (∀ (i : Nat) (h : Handle), s.ins[i]? = some (some h) →
      h.id < s.nextId ∧ h.crc = digestChunks (deliveredTo s.deliveries h.id)) ∧
  (∀ (i j : Nat) (gi gj : Handle), i ≠ j → s.ins[i]? = some (some gi) →
      s.ins[j]? = some (some gj) → gi.id ≠ gj.id) ∧
  (∀ d ∈ s.deliveries, d.1 < s.nextId) ∧
  (∀ p ∈ s.eofs, p.1 < s.nextId ∧
      p.2 = digestChunks (deliveredTo s.deliveries p.1) ∧
      ∀ (i : Nat) (h : Handle), s.ins[i]? = some (some h) → h.id ≠ p.1)

def EofsOk (s : MuxState) : Prop :=
  ∀ p ∈ s.eofs, p.2 = digestChunks (deliveredTo s.deliveries p.1)

theorem MuxInv_initMux : MuxInv initMux := by
  refine ⟨?_, ?_, ?_, ?_⟩
  · intro i h hh
    rcases i with _ | k <;> simp [initMux] at hh
  · intro i j gi gj hne hgi hgj
    rcases i with _ | k <;> simp [initMux] at hgi
  · intro d hd
    simp [initMux] at hd
  · intro p hp
    simp [initMux] at hp

theorem EofsOk_initMux : EofsOk initMux := by
  intro p hp
  simp [initMux] at hp

theorem MuxInv_ctrlRecv (beh : SinkBeh) (s : MuxState) (db coll : List Nat)
    (hinv : MuxInv s) :
    MuxInv (step beh s (Event.ctrlRecv db coll)).state := by
  obtain ⟨h1, h2, h3, h4⟩ := hinv
  simp only [step]
  refine ⟨?_, ?_, ?_, ?_⟩ <;> dsimp only
  · intro i h hh
    rw [getElem?_append_single] at hh
    by_cases hlt : i < s.ins.length
    · rw [if_pos hlt] at hh
      obtain ⟨ha, hb⟩ := h1 i h hh
      exact ⟨by omega, hb⟩
    · rw [if_neg hlt] at hh
      by_cases heq : i = s.ins.length
      · rw [if_pos heq] at hh
        have hth : h = ⟨s.nextId, db, coll, 0⟩ := by
          injection hh with hh2
          injection hh2 with hh3
          exact hh3.symm
        subst hth
        try dsimp only
        refine ⟨by omega, ?_⟩
        rw [deliveredTo_eq_nil s.deliveries s.nextId
          (fun d hd => by have := h3 d hd; omega)]
        rfl
      · rw [if_neg heq] at hh
        exact absurd hh (by simp)
  · intro i j gi gj hne hgi hgj
    rw [getElem?_append_single] at hgi hgj
    by_cases hi : i < s.ins.length <;> by_cases hj : j < s.ins.length
    · rw [if_pos hi] at hgi; rw [if_pos hj] at hgj
      exact h2 i j gi gj hne hgi hgj
    · rw [if_pos hi] at hgi
      rw [if_neg hj] at hgj
      by_cases hej : j = s.ins.length
      · rw [if_pos hej] at hgj
        have : gj = ⟨s.nextId, db, coll, 0⟩ := by
          injection hgj with hh2; injection hh2 with hh3; exact hh3.symm
        subst this
        try dsimp only
        have := (h1 i gi hgi).1
        try dsimp only
        simp only [ne_eq]
        omega
      · rw [if_neg hej] at hgj; exact absurd hgj (by simp)
    · rw [if_neg hi] at hgi
      by_cases hei : i = s.ins.length
      · rw [if_pos hei] at hgi
        have : gi = ⟨s.nextId, db, coll, 0⟩ := by
          injection hgi with hh2; injection hh2 with hh3; exact hh3.symm
        subst this
        try dsimp only
        rw [if_pos hj] at hgj
        have := (h1 j gj hgj).1
        try dsimp only
        simp only [ne_eq]
        omega
      · rw [if_neg hei] at hgi; exact absurd hgi (by simp)
    · rw [if_neg hi] at hgi; rw [if_neg hj] at hgj
      by_cases hei : i = s.ins.length <;> by_cases hej : j = s.ins.length
      · omega
      · rw [if_neg hej] at hgj; exact absurd hgj (by simp)
      · rw [if_neg hei] at hgi; exact absurd hgi (by simp)
      · rw [if_neg hei] at hgi; exact absurd hgi (by simp)
  · intro d hd
    have := h3 d hd
    omega
  · intro p hp
    obtain ⟨hp1, hp2, hp3⟩ := h4 p hp
    refine ⟨by omega, hp2, ?_⟩
    intro i h hh
    rw [getElem?_append_single] at hh
    by_cases hlt : i < s.ins.length
    · rw [if_pos hlt] at hh
      exact hp3 i h hh
    · rw [if_neg hlt] at hh
      by_cases heq : i = s.ins.length
      · rw [if_pos heq] at hh
        have : h = ⟨s.nextId, db, coll, 0⟩ := by
          injection hh with hh2; injection hh2 with hh3; exact hh3.symm
        subst this
        try dsimp only
        try dsimp only
        simp only [ne_eq]
        omega
      · rw [if_neg heq] at hh; exact absurd hh (by simp)

theorem MuxInv_update_dataRecv (s : MuxState) (i : Nat) (h : Handle)
    (bytes : List Nat) (ws : List (List Nat)) (k : Nat) (ns : List Nat)
    (hget : s.ins[i]? = some (some h)) (hinv : MuxInv s) :
    MuxInv { s with
      ins := s.ins.set i (some { h with crc := crc64Update h.crc bytes }),
      deliveries := s.deliveries ++ [(h.id, bytes)],
      outWrites := ws, sinkCalls := k, currentNamespace := ns } := by
  obtain ⟨h1, h2, h3, h4⟩ := hinv
  have hid : h.id < s.nextId := (h1 i h hget).1
  have hcrc : h.crc = digestChunks (deliveredTo s.deliveries h.id) :=
    (h1 i h hget).2
  have hlen : i < s.ins.length := by
    by_contra hq
    rw [List.getElem?_eq_none (by omega)] at hget
    exact Option.noConfusion hget
  have hdel : deliveredTo (s.deliveries ++ [(h.id, bytes)]) h.id =
      deliveredTo s.deliveries h.id ++ [bytes] := by
    rw [deliveredTo_append, deliveredTo_single_eq]
  refine ⟨?_, ?_, ?_, ?_⟩ <;> dsimp only
  · intro j g hg
    rw [List.getElem?_set] at hg
    by_cases hij : i = j
    · rw [if_pos hij, if_pos hlen] at hg
      have hgh : g = { h with crc := crc64Update h.crc bytes } := by
        injection hg with hg2
        injection hg2 with hg3
        exact hg3.symm
      subst hgh
      refine ⟨by dsimp only; omega, ?_⟩
      dsimp only
      rw [hdel, digestChunks_append_single, hcrc]
    · rw [if_neg hij] at hg
      obtain ⟨hga, hgb⟩ := h1 j g hg
      have hne2 : g.id ≠ h.id := h2 j i g h (fun hc => hij hc.symm) hg hget
      refine ⟨hga, ?_⟩
      rw [deliveredTo_append, deliveredTo_single_ne h.id g.id bytes
        (Ne.symm hne2), List.append_nil, hgb]
  · intro j k2 gj gk hne hgj hgk
    rw [List.getElem?_set] at hgj hgk
    by_cases hij : i = j <;> by_cases hik : i = k2
    · exact absurd (by omega) hne
    · rw [if_pos hij, if_pos hlen] at hgj
      have : gj = { h with crc := crc64Update h.crc bytes } := by
        injection hgj with hg2
        injection hg2 with hg3
        exact hg3.symm
      subst this
      rw [if_neg hik] at hgk
      have := h2 i k2 h gk hik hget hgk
      dsimp only
      exact this
    · rw [if_pos hik, if_pos hlen] at hgk
      have : gk = { h with crc := crc64Update h.crc bytes } := by
        injection hgk with hg2
        injection hg2 with hg3
        exact hg3.symm
      subst this
      rw [if_neg hij] at hgj
      have := h2 j i gj h (fun hc => hij hc.symm) hgj hget
      dsimp only
      exact this
    · rw [if_neg hij] at hgj
      rw [if_neg hik] at hgk
      exact h2 j k2 gj gk hne hgj hgk
  · intro d hd
    rw [List.mem_append] at hd
    cases hd with
    | inl hdo => exact h3 d hdo
    | inr hdn =>
        have : d = (h.id, bytes) := by simpa using hdn
        subst this
        exact hid
  · intro p hp
    obtain ⟨hp1, hp2, hp3⟩ := h4 p hp
    have hpne : h.id ≠ p.1 := hp3 i h hget
    refine ⟨hp1, ?_, ?_⟩
    · rw [deliveredTo_append, deliveredTo_single_ne h.id p.1 bytes hpne,
        List.append_nil]
      exact hp2
    · intro j g hg
      rw [List.getElem?_set] at hg
      by_cases hij : i = j
      · rw [if_pos hij, if_pos hlen] at hg
        have : g = { h with crc := crc64Update h.crc bytes } := by
          injection hg with hg2
          injection hg2 with hg3
          exact hg3.symm
        subst this
        dsimp only
        exact hpne
      · rw [if_neg hij] at hg
        exact hp3 j g hg

theorem MuxInv_update_dataClose (s : MuxState) (i : Nat) (h : Handle)
    (ws : List (List Nat)) (k : Nat)
    (hget : s.ins[i]? = some (some h)) (hinv : MuxInv s) :
    MuxInv { s with
      outWrites := ws, sinkCalls := k,
      eofs := s.eofs ++ [(h.id, h.crc)],
      currentNamespace := ([] : List Nat),
      ins := s.ins.take i ++ s.ins.drop (i + 1) } := by
  obtain ⟨h1, h2, h3, h4⟩ := hinv
  refine ⟨?_, ?_, ?_, ?_⟩ <;> dsimp only
  · intro j g hg
    rw [getElem?_removeAt] at hg
    by_cases hji : j < i
    · rw [if_pos hji] at hg
      exact h1 j g hg
    · rw [if_neg hji] at hg
      exact h1 (j + 1) g hg
  · intro j k2 gj gk hne hgj hgk
    rw [getElem?_removeAt] at hgj hgk
    by_cases hji : j < i <;> by_cases hki : k2 < i
    · rw [if_pos hji] at hgj
      rw [if_pos hki] at hgk
      exact h2 j k2 gj gk hne hgj hgk
    · rw [if_pos hji] at hgj
      rw [if_neg hki] at hgk
      exact h2 j (k2 + 1) gj gk (by omega) hgj hgk
    · rw [if_neg hji] at hgj
      rw [if_pos hki] at hgk
      exact h2 (j + 1) k2 gj gk (by omega) hgj hgk
    · rw [if_neg hji] at hgj
      rw [if_neg hki] at hgk
      exact h2 (j + 1) (k2 + 1) gj gk (by omega) hgj hgk
  · exact h3
  · intro p hp
    rw [List.mem_append] at hp
    cases hp with
    | inl hpo =>
        obtain ⟨hp1, hp2, hp3⟩ := h4 p hpo
        refine ⟨hp1, hp2, ?_⟩
        intro j g hg
        rw [getElem?_removeAt] at hg
        by_cases hji : j < i
        · rw [if_pos hji] at hg
          exact hp3 j g hg
        · rw [if_neg hji] at hg
          exact hp3 (j + 1) g hg
    | inr hpn =>
        have hpe : p = (h.id, h.crc) := by simpa using hpn
        subst hpe
        obtain ⟨hh1, hh2⟩ := h1 i h hget
        refine ⟨hh1, hh2, ?_⟩
        intro j g hg
        rw [getElem?_removeAt] at hg
        by_cases hji : j < i
        · rw [if_pos hji] at hg
          exact h2 j i g h (by omega) hg hget
        · rw [if_neg hji] at hg
          exact h2 (j + 1) i g h (by omega) hg hget

theorem formatEOF_eofRec (beh : SinkBeh) (base : Nat) (curNs : List Nat)
    (h : Handle) :
    (formatEOF beh base curNs h).eofRec = none ∨
    (formatEOF beh base curNs h).eofRec = some (h.id, h.crc) := by
  simp only [formatEOF]
  cases hw : (writeFramed beh base
      (if curNs = [] then [] else [terminatorBytes])).2 with
  | some e => left; rfl
  | none => right; rfl

theorem formatEOF_err_none_eofRec (beh : SinkBeh) (base : Nat)
    (curNs : List Nat) (h : Handle)
    (hok : (formatEOF beh base curNs h).err = none) :
    (formatEOF beh base curNs h).eofRec = some (h.id, h.crc) := by
  simp only [formatEOF] at hok ⊢
  cases hw : (writeFramed beh base
      (if curNs = [] then [] else [terminatorBytes])).2 with
  | some e =>
      rw [hw] at hok
      exact absurd hok (by simp)
  | none => rfl

theorem MuxInv_step (beh : SinkBeh) (s : MuxState) (e : Event)
    (hinv : MuxInv s) (hcont : (step beh s e).completed = none) :
    MuxInv (step beh s e).state := by
  cases e with
  | ctrlRecv db coll => exact MuxInv_ctrlRecv beh s db coll hinv
  | ctrlBad => exact absurd hcont (by simp [step])
  | ctrlClose =>
      exfalso
      simp only [step] at hcont
      split at hcont <;> exact Option.noConfusion hcont
  | dataBad i =>
      simp only [step] at hcont ⊢
      cases hget : s.ins[i]? with
      | none => exact hinv
      | some oh =>
          cases oh with
          | none => exact hinv
          | some hdl =>
              simp only [hget] at hcont
              exact absurd hcont (by simp)
  | dataRecv i bytes =>
      simp only [step] at hcont ⊢
      cases hget : s.ins[i]? with
      | none => exact hinv
      | some oh =>
          cases oh with
          | none => exact hinv
          | some hdl =>
              cases hres : (formatBody beh s.sinkCalls s.currentNamespace
                  { hdl with crc := crc64Update hdl.crc bytes } bytes).result with
              | error e2 =>
                  simp only [hget, hres] at hcont
                  exact absurd hcont (by simp)
              | ok n =>
                  dsimp only
                  rw [hres]
                  exact MuxInv_update_dataRecv s i hdl bytes _ _ _ hget hinv
  | dataClose i =>
      simp only [step] at hcont ⊢
      cases hget : s.ins[i]? with
      | none => exact hinv
      | some oh =>
          cases oh with
          | none => exact hinv
          | some hdl =>
              cases herr : (formatEOF beh s.sinkCalls s.currentNamespace
                  hdl).err with
              | some e2 =>
                  simp only [hget, herr] at hcont
                  exact absurd hcont (by simp)
              | none =>
                  dsimp only
                  rw [herr, formatEOF_err_none_eofRec beh s.sinkCalls
                    s.currentNamespace hdl herr]
                  exact MuxInv_update_dataClose s i hdl _ _ hget hinv

theorem EofsOk_of_inv (s : MuxState) (hinv : MuxInv s) : EofsOk s :=
  fun p hp => (hinv.2.2.2 p hp).2.1

theorem eofs_dataRecv_ok (s : MuxState) (i : Nat) (hdl : Handle)
    (bytes : List Nat) (hget : s.ins[i]? = some (some hdl))
    (hinv : MuxInv s) :
    ∀ p ∈ s.eofs,
      p.2 = digestChunks (deliveredTo (s.deliveries ++ [(hdl.id, bytes)]) p.1) := by
  intro p hp
  obtain ⟨hp1, hp2, hp3⟩ := hinv.2.2.2 p hp
  rw [deliveredTo_append, deliveredTo_single_ne hdl.id p.1 bytes
    (hp3 i hdl hget), List.append_nil]
  exact hp2

theorem eofs_extend_ok (s : MuxState) (i : Nat) (hdl : Handle)
    (rec2 : Option (Nat × Nat))
    (hrec : rec2 = none ∨ rec2 = some (hdl.id, hdl.crc))
    (hget : s.ins[i]? = some (some hdl)) (hinv : MuxInv s) :
    ∀ p ∈ s.eofs ++ rec2.toList,
      p.2 = digestChunks (deliveredTo s.deliveries p.1) := by
  intro p hp
  rw [List.mem_append] at hp
  cases hp with
  | inl hpo => exact (hinv.2.2.2 p hpo).2.1
  | inr hpn =>
      cases hrec with
      | inl hr =>
          rw [hr] at hpn
          exact absurd hpn (by simp)
      | inr hr =>
          rw [hr] at hpn
          have hpe : p = (hdl.id, hdl.crc) := by simpa using hpn
          subst hpe
          exact (hinv.1 i hdl hget).2

theorem EofsOk_step (beh : SinkBeh) (s : MuxState) (e : Event)
    (hinv : MuxInv s) : EofsOk (step beh s e).state := by
  cases e with
  | ctrlRecv db coll => exact EofsOk_of_inv s hinv
  | ctrlBad => exact EofsOk_of_inv s hinv
  | ctrlClose =>
      simp only [step]
      split <;> exact EofsOk_of_inv s hinv
  | dataBad i =>
      simp only [step]
      cases hget : s.ins[i]? with
      | none => exact EofsOk_of_inv s hinv
      | some oh =>
          cases oh with
          | none => exact EofsOk_of_inv s hinv
          | some hdl => exact EofsOk_of_inv s hinv
  | dataRecv i bytes =>
      simp only [step]
      cases hget : s.ins[i]? with
      | none => exact EofsOk_of_inv s hinv
      | some oh =>
          cases oh with
          | none => exact EofsOk_of_inv s hinv
          | some hdl =>
              cases hres : (formatBody beh s.sinkCalls s.currentNamespace
                  { hdl with crc := crc64Update hdl.crc bytes } bytes).result <;>
                (dsimp only; rw [hres];
                 exact eofs_dataRecv_ok s i hdl bytes hget hinv)
  | dataClose i =>
      simp only [step]
      cases hget : s.ins[i]? with
      | none => exact EofsOk_of_inv s hinv
      | some oh =>
          cases oh with
          | none => exact EofsOk_of_inv s hinv
          | some hdl =>
              have hrec := formatEOF_eofRec beh s.sinkCalls s.currentNamespace hdl
              cases herr : (formatEOF beh s.sinkCalls s.currentNamespace
                  hdl).err <;>
                (dsimp only; rw [herr];
                 exact eofs_extend_ok s i hdl _ hrec hget hinv)

theorem EofsOk_runAux (beh : SinkBeh) (events : List Event) :
    ∀ (s : MuxState) (acks : List (Nat × Nat)), MuxInv s → EofsOk s →
      EofsOk (runAux beh s acks events).state := by
  induction events with
  | nil => intro s acks hinv hok; exact hok
  | cons e es ih =>
      intro s acks hinv hok
      simp only [runAux]
      cases hc : (step beh s e).completed with
      | some c =>
          simp only [hc]
          exact EofsOk_step beh s e hinv
      | none =>
          simp only [hc]
          exact ih (step beh s e).state (acks ++ (step beh s e).ack.toList)
            (MuxInv_step beh s e hinv hc) (EofsOk_step beh s e hinv)

/-- A single producer delivering [7] then closing, for the witness. -/
def ev6 : List Event :=
  [Event.ctrlRecv [97] [98], Event.dataRecv 1 [7], Event.dataClose 1]

/-- Claim C6: for every `(id, crc)` pair marshalled into an eof header
during any run over any sink behaviour, the crc equals the CRC-64/ECMA
of the concatenation (in delivery order) of all record buffers that
handle delivered; buffer-flush boundaries do not affect the checksum. -/
theorem C6_thm (beh : SinkBeh) (events : List Event) (p : Nat × Nat)
    (hp : p ∈ (muxRun beh events).state.eofs) :
    p.2 = crc64Full (List.flatten
      (deliveredTo (muxRun beh events).state.deliveries p.1)) := by
  have hok := EofsOk_runAux beh events initMux [] MuxInv_initMux EofsOk_initMux
  have hthis := hok p hp
  rwa [digestChunks_eq] at hthis

/-- Claim C6, witness: the one-record run; the eof header for handle 0
carries exactly `crc64Full [7]`. -/
theorem C6_witness :
    ((0 : Nat), crc64Full [7]).2 = crc64Full (List.flatten
      (deliveredTo (muxRun perfectSink ev6).state.deliveries
        ((0 : Nat), crc64Full [7]).1)) :=
  C6_thm perfectSink ev6 (0, crc64Full [7]) (by decide)
